import Mathlib

/-!
Verification of the insight-worker background pipeline.

This file gives a shallow embedding of the worker's data model and stage
handlers and proves/refutes the frozen claims about them.

The repository contains two parallel implementations of the stage
handlers: the legacy module `insight_worker/tasks.py` (plain functions
`ingest_inode`, `index_inode`, `embed_inode`, `move_inode`, ...) and the
newer service-based `insight_worker/worker.py` (`InsightWorker.*`).  Both
are embedded here, with a `tasks` / `worker` prefix on the corresponding
definitions, because several claims quantify over both and the two
implementations genuinely differ.

External effects (object store, database, search store, OCR, the
embedding provider) are modelled as oracle inputs: every call a handler
makes to an external collaborator appears as a field of an environment
record describing that call's outcome (`Option PyErr` for calls whose
value is unused — `none` means the call returned, `some e` means it
raised an exception of kind `e` — and `Except PyErr A` for calls whose
value is used).  A handler is then a pure function from the inode row,
the page table and the environment to an outcome record collecting the
committed row state, the rows written, and the messages published.
-/

namespace InsightWorker

/-- The `file_error` enum of the `inodes.error` column
(`models.py`: `Enum('unsupported_file_type', 'corrupted_file')`). -/
inductive FileError where
  | unsupported_file_type
  | corrupted_file
deriving DecidableEq

/-- Kinds of Python exceptions distinguished by the handlers' `except`
clauses: `pikepdf.PdfError` is caught specially during ingest, every
other exception type is handled uniformly (`except Exception`). -/
inductive PyErr where
  | pdfError
  | otherError
deriving DecidableEq

/-- The `inodes` row (`models.py`, class `Inodes`) — the columns the
handlers read or write.  `is_ready` is a database-computed column, see
`Inode.is_ready` below.  Timestamps and the parent reference are omitted:
no handler logic depends on them. -/
structure Inode where
  id : Nat
  owner_id : String
  type : String
  name : String
  path : String
  is_indexed : Bool
  is_public : Bool
  is_uploaded : Bool
  is_ingested : Bool
  is_embedded : Bool
  from_page : Nat
  should_move : Bool
  to_page : Option Nat
  error : Option FileError

/-- The computed column
`is_ready = is_indexed AND is_uploaded AND is_ingested AND is_embedded`
(`models.py`, `Computed(...)` on `Inodes.is_ready`). -/
def Inode.is_ready (i : Inode) : Bool :=
  i.is_indexed && i.is_uploaded && i.is_ingested && i.is_embedded

/-- A `pages` row (`models.py`, class `Pages`).  The surrogate primary
key `id` is omitted (no claim depends on it); the row identity the
handlers key on is the unique constraint `(inode_id, index)`.  The
`embedding` column is `Vector(1536)`, nullable. -/
structure Page where
  inode_id : Nat
  index : Nat
  contents : String
  embedding : Option (List Float)

/-- The key of the unique constraint `pages_inode_id_index_key`. -/
def pkey (p : Page) : Nat × Nat := (p.inode_id, p.index)

/-! ## Object-store key derivation (`minio.py` / `tasks.py`)

`object_path` and `optimized_object_path` are identical in
`tasks.py` (lines 35-41) and `MinioService` (`minio.py` lines 38-61). -/

/-- The function `object_path(owner_id, path)`, i.e. the key
`users/{owner_id}{path}`. -/
def objectPath (owner_id path : String) : String :=
  "users/" ++ owner_id ++ path

/-- One character of the class `[^/.]`. -/
def segChar (c : Char) : Bool := !(c == '/') && !(c == '.')

/-- Match a character list against `([^/.]+)(\..+)$`: a non-empty run of
characters that are neither `/` nor `.`, followed by a literal dot and at
least one further character, reaching the end of the string.  Returns the
two groups.  The run is the maximal one (greedy `[^/.]+`); since the run
cannot contain a dot, no shorter run can be followed by `\.`, so the
greedy split is the only possible one. -/
def segSplit (l : List Char) : Option (List Char × List Char) :=
  let seg := l.takeWhile segChar
  match l.dropWhile segChar with
  | '.' :: c :: rest => if seg.isEmpty then none else some (seg, '.' :: c :: rest)
  | _ => none

/-- Find the decomposition `path = g1 ++ '/' :: seg ++ g3` chosen by
Python's `re.sub(r"(.+)(/[^/.]+)(\..+)$", ...)` backtracking, except that
`g1` is allowed to be empty here: the slash opening group 2 is the
rightmost slash whose suffix matches `([^/.]+)(\..+)$` (the greedy `(.+)`
maximises group 1, which is exactly choosing the rightmost viable slash;
`$` anchors group 3 at the end).  Returns `(g1, seg, g3)`. -/
def lastSlashMatch : List Char → Option (List Char × List Char × List Char)
  | [] => none
  | c :: cs =>
    match lastSlashMatch cs with
    | some (g1, seg, g3) => some (c :: g1, seg, g3)
    | none =>
      if c == '/' then
        match segSplit cs with
        | some (seg, g3) => some ([], seg, g3)
        | none => none
      else none

/-- The substitution
`re.sub(r"(.+)(/[^/.]+)(\..+)$", r"\1\2_optimized\3", path)`: when the
pattern matches (which requires a non-empty group 1, i.e. the viable
slash must not be the first character), rewrite the string; when it does
not match, `re.sub` returns the input unchanged. -/
def optimizedPathSub (path : String) : String :=
  match lastSlashMatch path.toList with
  | some (g1, seg, g3) =>
    if g1.isEmpty then path
    else String.mk (g1 ++ '/' :: seg ++ "_optimized".toList ++ g3)
  | none => path

/-- The function `optimized_object_path(owner_id, path)`:
`f"users/{owner_id}{re.sub(...)}"`. -/
def optimizedObjectPath (owner_id path : String) : String :=
  "users/" ++ owner_id ++ optimizedPathSub path

/-- Fidelity check against the repository's own unit test
(`tests/test_minio.py::test_optimized_object_path`). -/
theorem optimizedObjectPath_matches_repo_test :
    optimizedObjectPath "user123" "/documents/file.pdf"
      = "users/user123/documents/file_optimized.pdf" := by decide

/-- Fidelity check: the original key from the repo's unit test
(`tests/test_minio.py::test_object_path`). -/
theorem objectPath_matches_repo_test :
    objectPath "user123" "/documents/file.pdf"
      = "users/user123/documents/file.pdf" := by decide

/-- C9: evaluation of the key-derivation code at the inputs named by the
claim.  For the root-level path `/doc.pdf` the pattern
`(.+)(/[^/.]+)(\..+)$` cannot match (group 1 must be non-empty, and the
only slash is the first character), so `re.sub` returns the path
unchanged and the "optimized" key coincides with the original key —
`users/U/doc.pdf` — instead of the distinct
`users/U/doc_optimized.pdf` the claim (and §3 of the spec) requires.
The same happens for extension-less names such as `/a/doc` (group 3
requires a dot).  Uploading the optimized PDF would overwrite the
user's original object at that key. -/
theorem c9_optimized_key_collides_at_root :
    optimizedObjectPath "U" "/doc.pdf" = objectPath "U" "/doc.pdf"
      ∧ objectPath "U" "/doc.pdf" = "users/U/doc.pdf"
      ∧ optimizedObjectPath "U" "/a/doc" = objectPath "U" "/a/doc" := by decide

/-! ## Ingest (`tasks.py::ingest_inode`, `InsightWorker.ingest_inode`)

Both handlers download the original object, run a processing body inside
`try`/`except`/`finally`, and in the `finally` block set
`is_ingested = True`, commit, and publish follow-up messages.  The body's
external calls are the environment below.  The download itself happens
before the `try`, so a failing download aborts the handler without
running the finalizer; the claims only concern the body, so the
environments start at the MIME sniff. -/

/-- Python truthiness of the `to_page` column as used in
`if not inode.to_page:` — `None` and `0` are both falsy. -/
def pyFalsy : Option Nat → Bool
  | none => true
  | some n => n == 0

/-- Outcomes of the external calls made by the body of
`tasks.py::ingest_inode` (lines 147-203), in call order.  `mime` is the
result of `magic.from_file(..., mime=True)` compared against
`application/pdf`; `extract` is the per-page text extraction
(`fitz`/`page.get_text`). -/
structure TIngestEnv where
  mime : Except PyErr Bool
  pagecount : Except PyErr Nat
  repair : Option PyErr
  slicePdf : Option PyErr
  optimize : Option PyErr
  upload : Option PyErr
  setTags : Option PyErr
  extract : Except PyErr (List String)

/-- What the body raised, if anything: the typed `IngestException`, or an
ordinary Python exception of a given kind. -/
inductive BodyErr where
  | ingest (e : FileError)
  | py (e : PyErr)

/-- Python `str.strip()` on ASCII whitespace (the text extracted from
PDFs; `tasks.py` line 187: `page.get_text(sort=True).strip()`). -/
def pyStrip (s : String) : String :=
  String.mk (((s.toList.dropWhile Char.isWhitespace).reverse.dropWhile
    Char.isWhitespace).reverse)

/-- Python `text.replace("\x00", "")` (`worker.py` line 104). -/
def removeNul (s : String) : String :=
  String.mk (s.toList.filter (fun c => !(c == '\x00')))

/-- The rows built by `tasks.py` lines 184-193: one `Pages` object per
extracted text, `contents` whitespace-stripped (note: NOT NUL-stripped),
`index = inode.from_page + index`, `inode_id = inode.id`. -/
def tasksPageRows (i : Inode) (texts : List String) : List Page :=
  texts.enum.map (fun it =>
    { inode_id := i.id, index := i.from_page + it.1,
      contents := pyStrip it.2, embedding := none })

/-- The body of `tasks.py::ingest_inode` (the two nested `try` blocks,
lines 148-196): returns the possibly `to_page`-updated row, the rows
passed to `session.add_all`, and the first exception raised, if any.
Steps after the first exception do not run. -/
def tasksIngestBody (i : Inode) (env : TIngestEnv) :
    Inode × List Page × Option BodyErr :=
  match env.mime with
  | .error e => (i, [], some (.py e))
  | .ok isPdf =>
    if !isPdf then (i, [], some (.ingest .unsupported_file_type))
    else
      match (if pyFalsy i.to_page then
              match env.pagecount with
              | .error e => .error e
              | .ok n => .ok { i with to_page := some n }
             else .ok i : Except PyErr Inode) with
      | .error e => (i, [], some (.py e))
      | .ok i₁ =>
        match env.repair with
        | some e => (i₁, [], some (.py e))
        | none =>
        match env.slicePdf with
        | some e => (i₁, [], some (.py e))
        | none =>
        match env.optimize with
        | some e => (i₁, [], some (.py e))
        | none =>
        match env.upload with
        | some e => (i₁, [], some (.py e))
        | none =>
        match (if i₁.is_public then env.setTags else none) with
        | some e => (i₁, [], some (.py e))
        | none =>
        match env.extract with
        | .error e => (i₁, [], some (.py e))
        | .ok texts => (i₁, tasksPageRows i₁ texts, none)

/-- The `except` ladder of `tasks.py::ingest_inode` (lines 195-200): the
inner `except PdfError` re-raises the typed
`IngestException("corrupted_file")`; `except IngestException` persists
the error string to `inode.error`; the final `except Exception` only
logs, leaving `inode.error` unchanged. -/
def tasksApplyErr (e₀ : Option FileError) : Option BodyErr → Option FileError
  | none => e₀
  | some (.ingest e) => some e
  | some (.py .pdfError) => some .corrupted_file
  | some (.py .otherError) => e₀

/-- The observable outcome of an ingest handler run: the committed row,
the page rows written, the routing keys published on the `insight`
exchange, and whether a user notification went out. -/
structure IngestOutcome where
  inode : Inode
  newPages : List Page
  committed : Bool
  insightEvents : List String
  notified : Bool

/-- The handler `tasks.py::ingest_inode`, from the MIME sniff onwards.  The `finally`
block (lines 201-232) always sets `is_ingested = True`, commits, and —
when a channel was passed — publishes `embed_inode` and `index_inode` to
the `insight` exchange and a user notification, the latter
unconditionally (no readiness/error check in this version). -/
def tasksIngest (i : Inode) (env : TIngestEnv) (channel : Bool) :
    IngestOutcome :=
  let (i₁, rows, berr) := tasksIngestBody i env
  let i₂ := { i₁ with error := tasksApplyErr i₁.error berr, is_ingested := true }
  { inode := i₂,
    newPages := rows,
    committed := true,
    insightEvents := if channel then ["embed_inode", "index_inode"] else [],
    notified := channel }

/-- Outcomes of the external calls made by the body of
`InsightWorker.ingest_inode` (`worker.py` lines 61-128).  This version
has no slice step; `upsert` is the `session.execute` of the
`ON CONFLICT DO UPDATE` insert. -/
structure WIngestEnv where
  mime : Except PyErr Bool
  pagecount : Except PyErr Nat
  repair : Option PyErr
  optimize : Option PyErr
  upload : Option PyErr
  setTags : Option PyErr
  extract : Except PyErr (List String)
  upsert : Option PyErr

/-- A row of the `VALUES` list built by `worker.py` lines 102-109:
contents NUL-stripped, `index = inode.from_page + index`. -/
structure PageValue where
  contents : String
  index : Nat
  inode_id : Nat

/-- The key the `ON CONFLICT` clause fires on
(constraint `pages_inode_id_index_key`). -/
def vkey (v : PageValue) : Nat × Nat := (v.inode_id, v.index)

/-- Lines 102-109 of `worker.py`: the page values list. -/
def workerPageValues (i : Inode) (texts : List String) : List PageValue :=
  texts.enum.map (fun it =>
    { contents := removeNul it.2, index := i.from_page + it.1,
      inode_id := i.id })

/-- The body of `InsightWorker.ingest_inode` (lines 61-121).  Unlike
`tasks.py`: a `PdfError` from the page count is converted to
`IngestException("corrupted_file")` right there (lines 70-76); ANY
exception from repair/optimize is converted to
`IngestException("corrupted_file")` (lines 78-83); there is no slice
step; pages are written through an upsert. -/
def workerIngestBody (i : Inode) (env : WIngestEnv) :
    Inode × List PageValue × Option BodyErr :=
  match env.mime with
  | .error e => (i, [], some (.py e))
  | .ok isPdf =>
    if !isPdf then (i, [], some (.ingest .unsupported_file_type))
    else
      match (if pyFalsy i.to_page then
              match env.pagecount with
              | .error .pdfError => .error (.ingest .corrupted_file)
              | .error .otherError => .error (.py .otherError)
              | .ok n => .ok { i with to_page := some n }
             else .ok i : Except BodyErr Inode) with
      | .error e => (i, [], some e)
      | .ok i₁ =>
        match env.repair with
        | some _ => (i₁, [], some (.ingest .corrupted_file))
        | none =>
        match env.optimize with
        | some _ => (i₁, [], some (.ingest .corrupted_file))
        | none =>
        match env.upload with
        | some e => (i₁, [], some (.py e))
        | none =>
        match (if i₁.is_public then env.setTags else none) with
        | some e => (i₁, [], some (.py e))
        | none =>
        match env.extract with
        | .error e => (i₁, [], some (.py e))
        | .ok texts =>
          match env.upsert with
          | some e => (i₁, workerPageValues i₁ texts, some (.py e))
          | none => (i₁, workerPageValues i₁ texts, none)

/-- The `except` ladder of `InsightWorker.ingest_inode` (lines 122-125):
`except IngestException` persists the error; `except Exception` only
logs. -/
def workerApplyErr (e₀ : Option FileError) : Option BodyErr → Option FileError
  | none => e₀
  | some (.ingest e) => some e
  | some (.py _) => e₀

/-- The outcome of `InsightWorker.ingest_inode`.  `pageValues` is the
`VALUES` list of the upsert statement that was executed (empty when the
body failed before building it). -/
structure WIngestOutcome where
  inode : Inode
  pageValues : List PageValue
  committed : Bool
  insightEvents : List String
  notified : Bool

/-- The handler `InsightWorker.ingest_inode`, from the MIME sniff
onwards.  The
`finally` block (lines 126-155) always sets `is_ingested = True` and
commits; when a channel exists it publishes ONLY `embed_inode` to the
`insight` exchange (no `index_inode` in this version), and the user
notification only when the updated row `is_ready` or carries an error
(the row is re-read after the commit, so the check sees the new
flags). -/
def workerIngest (i : Inode) (env : WIngestEnv) (channel : Bool) :
    WIngestOutcome :=
  let (i₁, vals, berr) := workerIngestBody i env
  let i₂ := { i₁ with error := workerApplyErr i₁.error berr, is_ingested := true }
  { inode := i₂,
    pageValues := vals,
    committed := true,
    insightEvents := if channel then ["embed_inode"] else [],
    notified := channel && (i₂.is_ready || i₂.error.isSome) }

/-! ## Page-table writes

`worker.py` writes pages with a PostgreSQL
`INSERT ... ON CONFLICT ON CONSTRAINT pages_inode_id_index_key DO UPDATE
SET contents = excluded.contents` (lines 111-121); `tasks.py` uses
`session.add_all(pages)` (line 194), a plain INSERT.  The page table is
modelled as a list of rows; the database's unique constraint on
`(inode_id, index)` is the `uniqTable` predicate below. -/

/-- Whether a row sits at key `k` of the unique constraint. -/
def keyIs (k : Nat × Nat) (p : Page) : Bool := pkey p == k

/-- Every `(inode_id, index)` key matches at most one row — the unique
constraint `pages_inode_id_index_key`. -/
def uniqTable (tbl : List Page) : Prop :=
  ∀ k : Nat × Nat, (tbl.filter (keyIs k)).length ≤ 1

/-- The `DO UPDATE SET contents = excluded.contents` action applied to
one row: rows at the conflicting key get the new contents, every other
row — and every other column, `embedding` included — is untouched. -/
def updContents (v : PageValue) (p : Page) : Page :=
  if keyIs (vkey v) p then { p with contents := v.contents } else p

/-- The fresh row inserted for a value whose key is absent (a new row's
`embedding` starts out NULL). -/
def insRow (v : PageValue) : Page :=
  { inode_id := v.inode_id, index := v.index, contents := v.contents,
    embedding := none }

/-- One `VALUES` row of the upsert: insert when the key is absent,
otherwise update ONLY the `contents` column. -/
def upsertPage (tbl : List Page) (v : PageValue) : List Page :=
  if tbl.any (keyIs (vkey v)) then tbl.map (updContents v)
  else tbl ++ [insRow v]

/-- The whole upsert statement: its `VALUES` rows applied in order. -/
def upsertPages (tbl : List Page) (vs : List PageValue) : List Page :=
  vs.foldl upsertPage tbl

/-- Constraint violation raised when a plain INSERT hits an existing
`(inode_id, index)` key at commit time. -/
inductive DbErr where
  | uniqueViolation
deriving DecidableEq

/-- The call `session.add_all(rows)` followed by `commit` (`tasks.py` lines
194, 203): a plain INSERT, which fails on the unique constraint if any
row's key already exists in the table. -/
def insertPages (tbl : List Page) (rows : List Page) :
    Except DbErr (List Page) :=
  if rows.any (fun r => tbl.any (fun p => pkey p == pkey r)) then
    .error .uniqueViolation
  else .ok (tbl ++ rows)

/-! ## Index (`tasks.py::index_inode`, `InsightWorker.index_inode`) -/

/-- The check `res.status_code in [200, 201]` — the accepted statuses of an
OpenSearch document PUT. -/
def statusOk (n : Nat) : Bool := n == 200 || n == 201

/-- The page selection of both index handlers:
`WHERE length(contents) > 0 AND inode_id = :id` (`tasks.py` lines
242-246, `worker.py` lines 164-168). -/
def indexSelectPages (tbl : List Page) (i : Inode) : List Page :=
  tbl.filter (fun p => decide (0 < p.contents.length) && (p.inode_id == i.id))

/-- Python `str(Path(p).parent)` for the `folder` field: the path with its last
component removed; `/name` has parent `/`, a path with no slash has
parent `.` (pathlib semantics on the materialized paths, which are
slash-delimited and have no trailing slash). -/
def parentPath (p : String) : String :=
  match p.toList.reverse.dropWhile (fun c => !(c == '/')) with
  | [] => "."
  | ['/'] => "/"
  | _ :: rest => String.mk rest.reverse

/-- The single inode document `tasks.py::index_inode` PUTs (lines
250-269), with its nested `pages` (entry = window-relative index and
contents). -/
structure InodeDoc where
  path : String
  type : String
  folder : String
  filename : String
  owner_id : String
  is_public : Bool
  readable_by : List String
  pages : List (Nat × String)

/-- Lines 253-268 of `tasks.py`: the document body. -/
def tasksIndexDoc (i : Inode) (pages : List Page) : InodeDoc :=
  { path := i.path, type := i.type, folder := parentPath i.path,
    filename := i.name, owner_id := i.owner_id, is_public := i.is_public,
    readable_by := [i.owner_id],
    pages := pages.map (fun p => (p.index - i.from_page, p.contents)) }

/-- Outcome of `tasks.py::index_inode`: the document it sent, whether it
raised, the committed row, and whether the user was notified. -/
structure TIndexOutcome where
  raised : Bool
  inode : Inode
  doc : InodeDoc
  notified : Bool

/-- The handler `tasks.py::index_inode` (lines 236-281): one
`opensearch_request`
whose response status is `status`; on a status outside {200, 201} the
handler raises (line 271) before touching `is_indexed`; otherwise it
sets `is_indexed = True`, commits, and — when a channel exists —
publishes the user notification UNCONDITIONALLY (lines 276-281, no
readiness/error check in this version). -/
def tasksIndexInode (i : Inode) (tbl : List Page) (status : Nat)
    (channel : Bool) : TIndexOutcome :=
  let doc := tasksIndexDoc i (indexSelectPages tbl i)
  if statusOk status then
    { raised := false, inode := { i with is_indexed := true }, doc := doc,
      notified := channel }
  else
    { raised := true, inode := i, doc := doc, notified := false }

/-- Environment of `InsightWorker.index_inode`: the response status of
the `index_document` call for each document id (the parent document's id
is `str(inode.id)`, a page document's id is `f"{id}_{page.index}"`). -/
structure WIndexEnv where
  status : String → Nat

/-- The page document id `f"{id}_{page.index}"` (`worker.py` line 191). -/
def workerPageDocId (inodeId : Nat) (p : Page) : String :=
  toString inodeId ++ "_" ++ toString p.index

/-- A page child document (`worker.py` lines 192-201).  Its `embedding`
field is `page.embedding.tolist()`. -/
structure WPageDoc where
  owner_id : String
  is_public : Bool
  readable_by : List String
  index : Nat
  contents : String
  embedding : List Float

/-- Build the page child document.  When the page's `embedding` column is
NULL the Python expression `page.embedding.tolist()` raises
`AttributeError` (`None` has no `tolist`), aborting the handler. -/
def workerPageDoc (i : Inode) (p : Page) : Except PyErr WPageDoc :=
  match p.embedding with
  | none => .error .otherError
  | some e =>
    .ok { owner_id := i.owner_id, is_public := i.is_public,
          readable_by := [i.owner_id], index := p.index - i.from_page,
          contents := p.contents, embedding := e }

/-- The per-page loop of `InsightWorker.index_inode` (lines 189-202):
build each page document (which can raise on a NULL embedding), then PUT
it; a response status outside {200, 201} raises
(`OpenSearchService.index_document`). -/
def workerIndexPages (env : WIndexEnv) (i : Inode) :
    List Page → Except PyErr Unit
  | [] => .ok ()
  | p :: rest =>
    match workerPageDoc i p with
    | .error e => .error e
    | .ok _ =>
      if statusOk (env.status (workerPageDocId i.id p)) then
        workerIndexPages env i rest
      else .error .otherError

/-- Outcome of `InsightWorker.index_inode`. -/
structure IndexOutcome where
  raised : Bool
  inode : Inode
  notified : Bool

/-- The handler `InsightWorker.index_inode` (lines 158-220): PUT the parent
document, then each page child document; any exception (bad response
status, or the NULL-embedding `AttributeError`) is logged and RE-RAISED
(lines 218-220) before `is_indexed` is set; on success set
`is_indexed = True`, commit, and notify the user only when the updated
row `is_ready` or carries an error (lines 207-217). -/
def workerIndexInode (i : Inode) (tbl : List Page) (env : WIndexEnv)
    (channel : Bool) : IndexOutcome :=
  let pages := indexSelectPages tbl i
  let run : Except PyErr Unit :=
    if statusOk (env.status (toString i.id)) then workerIndexPages env i pages
    else .error .otherError
  match run with
  | .error _ => { raised := true, inode := i, notified := false }
  | .ok _ =>
    let i₂ := { i with is_indexed := true }
    { raised := false, inode := i₂,
      notified := channel && (i₂.is_ready || i₂.error.isSome) }

/-! ## Embed (`tasks.py::embed_inode`, `InsightWorker.embed_inode`) -/

/-- The page selection of both embed handlers (`tasks.py` lines 295-302,
`worker.py` lines 233-240):
`index >= from_page AND index < to_page AND embedding IS NULL AND
length(contents) > 0 AND inode_id = :id`.  When `to_page` is SQL NULL
the comparison `index < NULL` is never true, so no row qualifies. -/
def embedSelect (tbl : List Page) (i : Inode) : List Page :=
  tbl.filter (fun p =>
    decide (i.from_page ≤ p.index) &&
    (match i.to_page with
     | none => false
     | some t => decide (p.index < t)) &&
    p.embedding.isNone &&
    decide (0 < p.contents.length) &&
    (p.inode_id == i.id))

/-- The generator `rag.batched(iterable, 64)`: chunk the input into batches
of at most
64, in order; an empty input yields no batch. -/
def batched64 (l : List String) : List (List String) :=
  match l with
  | [] => []
  | x :: xs => (x :: xs).take 64 :: batched64 ((x :: xs).drop 64)
termination_by l.length
decreasing_by simp [List.length_drop]; omega

/-- The number of HTTP requests `rag.embed` makes to the embedding
provider: one per batch (the `httpx.post` inside the loop over
`batched(strings, 64)`). -/
def providerRequests (texts : List String) : Nat := (batched64 texts).length

/-- Outcome of an embed handler run. -/
structure EmbedOutcome where
  raised : Bool
  inode : Inode
  requests : Nat
  insightEvents : List String
  notified : Bool

/-- The handler `tasks.py::embed_inode` (lines 285-317): raise on an
errored inode
(lines 291-292); otherwise select pages, request their embeddings (the
generator makes one request per 64-batch; zero pages means `batched`
yields nothing, hence zero requests), assign them, set
`is_embedded = True`, commit, and notify the user unconditionally when a
channel exists (lines 312-317).  No `insight` event is published by this
version.  The provider is assumed to answer (a provider failure raises
and is outside the claims about this handler). -/
def tasksEmbedInode (i : Inode) (tbl : List Page) (channel : Bool) :
    EmbedOutcome :=
  if i.error.isSome then
    { raised := true, inode := i, requests := 0, insightEvents := [],
      notified := false }
  else
    let pages := embedSelect tbl i
    { raised := false, inode := { i with is_embedded := true },
      requests := providerRequests (pages.map Page.contents),
      insightEvents := [],
      notified := channel }

/-- The handler `InsightWorker.embed_inode` (lines 223-267): as `tasks.py`,
except
the provider is only called when the selection is non-empty (line 242 —
`providerRequests` is 0 on an empty selection either way), an
`index_inode` follow-up is published to the `insight` exchange (lines
250-258), and the user notification is gated on the updated row being
ready or errored (lines 260-267). -/
def workerEmbedInode (i : Inode) (tbl : List Page) (channel : Bool) :
    EmbedOutcome :=
  if i.error.isSome then
    { raised := true, inode := i, requests := 0, insightEvents := [],
      notified := false }
  else
    let pages := embedSelect tbl i
    let i₂ := { i with is_embedded := true }
    { raised := false, inode := i₂,
      requests := providerRequests (pages.map Page.contents),
      insightEvents := if channel then ["index_inode"] else [],
      notified := channel && (i₂.is_ready || i₂.error.isSome) }

/-! ## Move (`tasks.py::move_inode`, `InsightWorker.move_inode`)

The two implementations are identical in behaviour:
`MinioService.move_file` (`minio.py` lines 123-148) performs the same
copy-then-remove pairs, in the same order, as the inline loop of
`tasks.py` lines 336-355. -/

/-- An object-store operation issued during a move. -/
inductive StorageOp where
  | copy (src dst : String)
  | remove (key : String)
deriving DecidableEq

/-- Outcome of a move handler run. -/
structure MoveOutcome where
  inode : Inode
  committed : Bool
  storageOps : List StorageOp
  insightEvents : List String

/-- The handler `move_inode` (`tasks.py` lines 321-372 = `worker.py` lines
270-300):
read the row and the database-computed canonical path
(`func.inode_path`); if it equals the stored path, do nothing at all;
otherwise, for a file, copy then remove the original object and then the
optimized object from the old keys to the new keys, then set
`inode.path` to the computed path, clear `should_move`, commit, and
publish `index_inode` when a channel exists. -/
def moveInode (i : Inode) (computedPath : String) (channel : Bool) :
    MoveOutcome :=
  if computedPath = i.path then
    { inode := i, committed := false, storageOps := [], insightEvents := [] }
  else
    let ops :=
      if i.type = "file" then
        [StorageOp.copy (objectPath i.owner_id i.path)
           (objectPath i.owner_id computedPath),
         StorageOp.remove (objectPath i.owner_id i.path),
         StorageOp.copy (optimizedObjectPath i.owner_id i.path)
           (optimizedObjectPath i.owner_id computedPath),
         StorageOp.remove (optimizedObjectPath i.owner_id i.path)]
      else []
    { inode := { i with path := computedPath, should_move := false },
      committed := true, storageOps := ops,
      insightEvents := if channel then ["index_inode"] else [] }

/-! ## PDF slicing (`tasks.py::slice_pdf`, lines 100-113) -/

/-- The list `pages_to_delete = list(chain(range(0, from_page),
range(to_page, len(pdf.pages))))`. -/
def pagesToDelete (n f t : Nat) : List Nat :=
  List.range f ++ List.range' t (n - t)

/-- The function `slice_pdf`: when there are pages to delete, delete them
from the
document (`del pdf.pages[p]`) iterating the delete list in REVERSED
order, then save; otherwise leave the document untouched and do not
save.  Returns the resulting page list and whether the file was
saved. -/
def slicePdfPages {α : Type} (pages : List α) (f t : Nat) : List α × Bool :=
  let toDel := pagesToDelete pages.length f t
  if toDel.isEmpty then (pages, false)
  else (toDel.reverse.foldl List.eraseIdx pages, true)

/-! ## Concrete fixtures used by witnesses and counterexamples -/

/-- A concrete inode row (a plain uploaded file, nothing processed
yet). -/
def exInode : Inode :=
  { id := 42, owner_id := "U", type := "file", name := "doc.pdf",
    path := "/a/doc.pdf", is_indexed := false, is_public := false,
    is_uploaded := true, is_ingested := false, is_embedded := false,
    from_page := 0, should_move := false, to_page := some 3, error := none }

/-- A `tasks.py` ingest environment where every external call
succeeds. -/
def exTEnvOk : TIngestEnv :=
  { mime := .ok true, pagecount := .ok 3, repair := none, slicePdf := none,
    optimize := none, upload := none, setTags := none,
    extract := .ok ["hello"] }

/-- A `worker.py` ingest environment where every external call
succeeds. -/
def exWEnvOk : WIngestEnv :=
  { mime := .ok true, pagecount := .ok 3, repair := none, optimize := none,
    upload := none, setTags := none, extract := .ok ["hello"],
    upsert := none }

/-- The truthiness test `pyFalsy` is false on a positive page number. -/
theorem pyFalsy_some_succ (n : Nat) : pyFalsy (some (n + 1)) = false := by
  simp [pyFalsy]

/-- Positional constructor for `TIngestEnv` (field order: mime,
pagecount, repair, slicePdf, optimize, upload, setTags, extract). -/
def mkTEnv (mime : Except PyErr Bool) (pagecount : Except PyErr Nat)
    (repair slicePdf optimize upload setTags : Option PyErr)
    (extract : Except PyErr (List String)) : TIngestEnv :=
  ⟨mime, pagecount, repair, slicePdf, optimize, upload, setTags, extract⟩

/-- Positional constructor for `WIngestEnv` (field order: mime,
pagecount, repair, optimize, upload, setTags, extract, upsert). -/
def mkWEnv (mime : Except PyErr Bool) (pagecount : Except PyErr Nat)
    (repair optimize upload setTags : Option PyErr)
    (extract : Except PyErr (List String)) (upsert : Option PyErr) :
    WIngestEnv :=
  ⟨mime, pagecount, repair, optimize, upload, setTags, extract, upsert⟩

/-! ## C1 — ingest failure taxonomy -/

/-- C1 counterexample: in `tasks.py::ingest_inode`, an exception during
the repair step that is not a `pikepdf.PdfError` — which is what
Ghostscript failures actually raise (`subprocess.check_call` raises
`CalledProcessError`, `tasks.py` lines 56-69) — is caught by the generic
`except Exception` clause, so `inode.error` stays `None` instead of
being set to `corrupted_file` as the claim requires; the finalizer still
marks the row ingested. -/
theorem c1_counterexample :
    (tasksIngest exInode
        { mime := .ok true, pagecount := .ok 3, repair := some .otherError,
          slicePdf := none, optimize := none, upload := none,
          setTags := none, extract := .ok [] } true).inode.error = none
    ∧ (tasksIngest exInode
        { mime := .ok true, pagecount := .ok 3, repair := some .otherError,
          slicePdf := none, optimize := none, upload := none,
          setTags := none, extract := .ok [] } true).inode.is_ingested
        = true := ⟨rfl, rfl⟩

/-- C1 (amended): for every inode processed by either ingest handler —
a MIME sniff other than `application/pdf` sets
`error = unsupported_file_type`; an unreadable page count (a
`pikepdf.PdfError`) sets `error = corrupted_file`; in the service-based
worker ANY exception during repair or OCR sets `corrupted_file`, but in
the legacy `tasks.py` handler only a `PdfError` during repair/slice does
— any other exception there (e.g. the Ghostscript `CalledProcessError`)
leaves the error field unchanged; any other exception (e.g. during
upload) leaves the error field unchanged in both; and in every case the
finalizer still sets `is_ingested = true` and commits. -/
theorem c1_amended (i : Inode) (ch : Bool) (e : PyErr) (n : Nat)
    (pc : Except PyErr Nat) (rp sl op up tg : Option PyErr)
    (ex : Except PyErr (List String)) :
    (∀ envT : TIngestEnv, (tasksIngest i envT ch).inode.is_ingested = true
      ∧ (tasksIngest i envT ch).committed = true) ∧
    (∀ envW : WIngestEnv, (workerIngest i envW ch).inode.is_ingested = true
      ∧ (workerIngest i envW ch).committed = true) ∧
    (tasksIngest i (mkTEnv (.ok false) pc rp sl op up tg ex)
        ch).inode.error = some .unsupported_file_type ∧
    (workerIngest i (mkWEnv (.ok false) pc rp op up tg ex up)
        ch).inode.error = some .unsupported_file_type ∧
    (tasksIngest { i with to_page := none }
        (mkTEnv (.ok true) (.error .pdfError) rp sl op up tg ex)
        ch).inode.error = some .corrupted_file ∧
    (workerIngest { i with to_page := none }
        (mkWEnv (.ok true) (.error .pdfError) rp op up tg ex up)
        ch).inode.error = some .corrupted_file ∧
    (workerIngest { i with to_page := some (n + 1) }
        (mkWEnv (.ok true) pc (some e) op up tg ex up)
        ch).inode.error = some .corrupted_file ∧
    (workerIngest { i with to_page := some (n + 1) }
        (mkWEnv (.ok true) pc none (some e) up tg ex up)
        ch).inode.error = some .corrupted_file ∧
    (tasksIngest { i with to_page := some (n + 1) }
        (mkTEnv (.ok true) pc (some .pdfError) sl op up tg ex)
        ch).inode.error = some .corrupted_file ∧
    (tasksIngest { i with to_page := some (n + 1) }
        (mkTEnv (.ok true) pc none (some .pdfError) op up tg ex)
        ch).inode.error = some .corrupted_file ∧
    (tasksIngest { i with to_page := some (n + 1) }
        (mkTEnv (.ok true) pc (some .otherError) sl op up tg ex)
        ch).inode.error = i.error ∧
    (tasksIngest { i with to_page := some (n + 1), is_public := false }
        (mkTEnv (.ok true) pc none none none (some .otherError) tg ex)
        ch).inode.error = i.error ∧
    (workerIngest { i with to_page := some (n + 1), is_public := false }
        (mkWEnv (.ok true) pc none none (some e) tg ex up)
        ch).inode.error = i.error := by
  refine ⟨?_, ?_, rfl, rfl, rfl, rfl, rfl, rfl, rfl, rfl, rfl, rfl, rfl⟩
  · intro env
    rcases h : tasksIngestBody i env with ⟨i₁, rows, berr⟩
    simp [tasksIngest, h]
  · intro env
    rcases h : workerIngestBody i env with ⟨i₁, vals, berr⟩
    simp [workerIngest, h]

/-! ## C3 — follow-up events after ingest -/

/-- C3 counterexample: `InsightWorker.ingest_inode` publishes ONLY
`embed_inode` to the `insight` exchange (`worker.py` lines 130-139);
no `index_inode` follow-up is published even on a fully successful run
with a channel available. -/
theorem c3_counterexample :
    (workerIngest exInode exWEnvOk true).insightEvents = ["embed_inode"]
    ∧ "index_inode" ∉ (workerIngest exInode exWEnvOk true).insightEvents := by
  refine ⟨rfl, ?_⟩
  intro hmem
  simp [workerIngest, workerIngestBody, exInode, exWEnvOk, mkWEnv] at hmem

/-- C3 (amended): on every exit path of the legacy
`tasks.py::ingest_inode` the finalizer publishes both `embed_inode` and
`index_inode` to the `insight` exchange when a channel is available; the
service-based `InsightWorker.ingest_inode` instead publishes only
`embed_inode` — the `index_inode` follow-up is published later, by the
embed handler's finalizer. -/
theorem c3_amended (i : Inode) (envT : TIngestEnv) (envW : WIngestEnv)
    (tbl : List Page) :
    (tasksIngest i envT true).insightEvents = ["embed_inode", "index_inode"]
    ∧ (workerIngest i envW true).insightEvents = ["embed_inode"]
    ∧ (workerEmbedInode { i with error := none } tbl true).insightEvents
        = ["index_inode"] := by
  refine ⟨?_, ?_, rfl⟩
  · rcases h : tasksIngestBody i envT with ⟨i₁, rows, berr⟩
    simp [tasksIngest, h]
  · rcases h : workerIngestBody i envW with ⟨i₁, vals, berr⟩
    simp [workerIngest, h]

/-! ## C4 — user notifications only on terminal state -/

/-- C4 counterexample: `tasks.py::index_inode` publishes the user
notification UNCONDITIONALLY once the search write succeeded (lines
276-281): here the inode is in a non-terminal state (not ready — e.g.
`is_ingested` is still false — and no error), yet the notification is
published. -/
theorem c4_counterexample :
    (tasksIndexInode exInode [] 200 true).notified = true
    ∧ (tasksIndexInode exInode [] 200 true).inode.is_ready = false
    ∧ (tasksIndexInode exInode [] 200 true).inode.error = none :=
  ⟨rfl, rfl, rfl⟩

/-- C4 (amended): the service-based worker handlers gate the user
notification on the re-read row being terminal — published iff the
handler did not raise, a channel exists, and the updated row `is_ready`
or carries an error.  The legacy `tasks.py` handlers publish the
notification unconditionally whenever a channel is present and the
handler reached its finalizer/commit. -/
theorem c4_amended (i : Inode) (envT : TIngestEnv) (envW : WIngestEnv)
    (wix : WIndexEnv) (tbl : List Page) (st : Nat) (ch : Bool) :
    (workerIngest i envW ch).notified
      = (ch && ((workerIngest i envW ch).inode.is_ready
          || ((workerIngest i envW ch).inode.error).isSome)) ∧
    (workerIndexInode i tbl wix ch).notified
      = (!(workerIndexInode i tbl wix ch).raised && ch
          && ((workerIndexInode i tbl wix ch).inode.is_ready
            || ((workerIndexInode i tbl wix ch).inode.error).isSome)) ∧
    (workerEmbedInode i tbl ch).notified
      = (!(workerEmbedInode i tbl ch).raised && ch
          && ((workerEmbedInode i tbl ch).inode.is_ready
            || ((workerEmbedInode i tbl ch).inode.error).isSome)) ∧
    (tasksIngest i envT ch).notified = ch ∧
    (tasksIndexInode i tbl st ch).notified
      = (!(tasksIndexInode i tbl st ch).raised && ch) ∧
    (tasksEmbedInode i tbl ch).notified
      = (!(tasksEmbedInode i tbl ch).raised && ch) := by
  refine ⟨?_, ?_, ?_, ?_, ?_, ?_⟩
  · rcases h : workerIngestBody i envW with ⟨i₁, vals, berr⟩
    simp [workerIngest, h]
  · simp only [workerIndexInode]
    split <;> simp
  · simp only [workerEmbedInode]
    split <;> simp
  · rcases h : tasksIngestBody i envT with ⟨i₁, rows, berr⟩
    simp [tasksIngest, h]
  · simp only [tasksIndexInode]
    split <;> simp
  · simp only [tasksEmbedInode]
    split <;> simp

/-! ## C2 — search-store errors block `is_indexed` -/

/-- The per-page loop fails whenever the search store answers any page
PUT with a bad status or a page document cannot be built. -/
theorem workerIndexPages_ok_elim (wix : WIndexEnv) (i : Inode)
    (ps : List Page) (h : workerIndexPages wix i ps = .ok ()) :
    ∀ p ∈ ps, p.embedding ≠ none
      ∧ statusOk (wix.status (workerPageDocId i.id p)) = true := by
  induction ps with
  | nil => intro p hp; cases hp
  | cons q rest ih =>
    intro p hp
    rcases hq : q.embedding with _ | emb
    · rw [workerIndexPages, workerPageDoc, hq] at h
      cases h
    · rw [workerIndexPages, workerPageDoc, hq] at h
      by_cases hs : statusOk (wix.status (workerPageDocId i.id q)) = true
      · rw [if_pos hs] at h
        cases hp with
        | head => exact ⟨by simp [hq], hs⟩
        | tail _ hp => exact ih h p hp
      · rw [if_neg hs] at h
        cases h

/-- C2: in both index handlers, an error status from the search-store
upsert makes the handler raise and leaves `is_indexed` untouched (and
suppresses the notification); `is_indexed` is set to true (and
committed) only when the search-store write(s) succeeded. -/
theorem c2_search_error_blocks_indexed (i : Inode) (tbl : List Page)
    (st : Nat) (ch : Bool) (wix : WIndexEnv) :
    (statusOk st = false →
      (tasksIndexInode i tbl st ch).raised = true
      ∧ (tasksIndexInode i tbl st ch).inode = i
      ∧ (tasksIndexInode i tbl st ch).notified = false) ∧
    (statusOk st = true →
      (tasksIndexInode i tbl st ch).raised = false
      ∧ (tasksIndexInode i tbl st ch).inode.is_indexed = true) ∧
    (statusOk (wix.status (toString i.id)) = false →
      (workerIndexInode i tbl wix ch).raised = true
      ∧ (workerIndexInode i tbl wix ch).inode = i
      ∧ (workerIndexInode i tbl wix ch).notified = false) ∧
    (∀ e, workerIndexPages wix i (indexSelectPages tbl i) = .error e →
      (workerIndexInode i tbl wix ch).raised = true
      ∧ (workerIndexInode i tbl wix ch).inode = i) ∧
    (statusOk (wix.status (toString i.id)) = true →
      workerIndexPages wix i (indexSelectPages tbl i) = .ok () →
      (workerIndexInode i tbl wix ch).raised = false
      ∧ (workerIndexInode i tbl wix ch).inode.is_indexed = true) := by
  refine ⟨?_, ?_, ?_, ?_, ?_⟩
  · intro hs
    simp [tasksIndexInode, hs]
  · intro hs
    simp [tasksIndexInode, hs]
  · intro hs
    simp [workerIndexInode, hs]
  · intro e he
    by_cases hs : statusOk (wix.status (toString i.id)) = true
    · simp [workerIndexInode, hs, he]
    · simp [workerIndexInode, hs]
  · intro hs hp
    simp [workerIndexInode, hs, hp]

/-- Witness for C2 at concrete inputs: a 500 response leaves the row
unindexed in both handlers; a 200 response (with an empty page
selection) marks it indexed. -/
theorem c2_witness :
    (tasksIndexInode exInode [] 500 true).raised = true
    ∧ (tasksIndexInode exInode [] 200 true).inode.is_indexed = true
    ∧ (workerIndexInode exInode [] { status := fun _ => 500 } true).raised
        = true
    ∧ (workerIndexInode exInode [] { status := fun _ => 200 }
        true).inode.is_indexed = true :=
  ⟨((c2_search_error_blocks_indexed exInode [] 500 true
      { status := fun _ => 500 }).1 (by decide)).1,
   ((c2_search_error_blocks_indexed exInode [] 200 true
      { status := fun _ => 500 }).2.1 (by decide)).2,
   ((c2_search_error_blocks_indexed exInode [] 500 true
      { status := fun _ => 500 }).2.2.1 (by decide)).1,
   ((c2_search_error_blocks_indexed exInode [] 500 true
      { status := fun _ => 200 }).2.2.2.2 (by decide) rfl).2⟩

/-! ## C7 — move handler -/

/-- C7: when the database-computed canonical path equals the stored
path, `move_inode` performs no storage operation, updates nothing,
commits nothing and publishes nothing; when it differs and the inode is
a file, it copies then removes the original and the optimized object
(old keys → new keys, in that order), sets `inode.path` to the computed
path, clears `should_move`, commits, and publishes `index_inode` when a
channel exists. -/
theorem c7_move (i : Inode) (computed : String) (ch : Bool) :
    (moveInode i i.path ch).storageOps = []
    ∧ (moveInode i i.path ch).committed = false
    ∧ (moveInode i i.path ch).inode = i
    ∧ (moveInode i i.path ch).insightEvents = []
    ∧ (computed ≠ i.path → i.type = "file" →
        (moveInode i computed ch).storageOps =
          [.copy (objectPath i.owner_id i.path)
             (objectPath i.owner_id computed),
           .remove (objectPath i.owner_id i.path),
           .copy (optimizedObjectPath i.owner_id i.path)
             (optimizedObjectPath i.owner_id computed),
           .remove (optimizedObjectPath i.owner_id i.path)]
        ∧ (moveInode i computed ch).inode.path = computed
        ∧ (moveInode i computed ch).inode.should_move = false
        ∧ (moveInode i computed ch).committed = true
        ∧ (moveInode i computed ch).insightEvents
            = (if ch then ["index_inode"] else [])) := by
  refine ⟨?_, ?_, ?_, ?_, ?_⟩
  · simp [moveInode]
  · simp [moveInode]
  · simp [moveInode]
  · simp [moveInode]
  · intro hne hty
    simp [moveInode, hne, hty]

/-- Witness for C7 at concrete inputs: an actual move of a file, and the
no-op case. -/
theorem c7_witness :
    (moveInode exInode "/b/doc.pdf" true).committed = true
    ∧ (moveInode exInode exInode.path true).committed = false :=
  ⟨((c7_move exInode "/b/doc.pdf" true).2.2.2.2 (by decide) rfl).2.2.2.1,
   (c7_move exInode "/b/doc.pdf" true).2.1⟩

/-! ## C10 — indexing requires embeddings in the service worker -/

/-- The per-page loop of `InsightWorker.index_inode` raises whenever the
selection contains a page whose `embedding` is NULL, regardless of the
search store's responses. -/
theorem workerIndexPages_error_of_null (wix : WIndexEnv) (i : Inode)
    (ps : List Page) (p : Page) (hp : p ∈ ps) (hn : p.embedding = none) :
    ∃ e, workerIndexPages wix i ps = .error e := by
  induction ps with
  | nil => cases hp
  | cons q rest ih =>
    rcases hq : q.embedding with _ | emb
    · exact ⟨.otherError, by rw [workerIndexPages, workerPageDoc, hq]⟩
    · cases hp with
      | head => rw [hq] at hn; cases hn
      | tail _ hp =>
        by_cases hs : statusOk (wix.status (workerPageDocId i.id q)) = true
        · obtain ⟨e, he⟩ := ih hp
          exact ⟨e, by rw [workerIndexPages, workerPageDoc, hq, if_pos hs, he]⟩
        · exact ⟨.otherError,
            by rw [workerIndexPages, workerPageDoc, hq, if_neg hs]⟩

/-- C10: in the service-based worker, for every inode whose page table
contains a page of that inode with non-empty contents and a NULL
embedding, `index_inode` raises before marking the inode indexed —
`page.embedding.tolist()` fails on `None` — so indexing succeeds only
when every non-empty page already carries an embedding, even though the
state machine allows `index_inode` to arrive before `embed_inode`. -/
theorem c10_index_requires_embeddings (i : Inode) (pre post : List Page)
    (idx : Nat) (c : Char) (cs : List Char) (wix : WIndexEnv) (ch : Bool) :
    (workerIndexInode i
        (pre ++ { inode_id := i.id, index := idx,
                  contents := String.mk (c :: cs),
                  embedding := none } :: post) wix ch).raised = true
    ∧ (workerIndexInode i
        (pre ++ { inode_id := i.id, index := idx,
                  contents := String.mk (c :: cs),
                  embedding := none } :: post) wix ch).inode = i := by
  set p : Page := { inode_id := i.id, index := idx,
                    contents := String.mk (c :: cs), embedding := none }
    with hp
  have hmem : p ∈ indexSelectPages (pre ++ p :: post) i := by
    apply List.mem_filter.mpr
    refine ⟨by simp, ?_⟩
    simp [hp, String.length]
  obtain ⟨e, he⟩ := workerIndexPages_error_of_null wix i
    (indexSelectPages (pre ++ p :: post) i) p hmem (by simp [hp])
  by_cases hs : statusOk (wix.status (toString i.id)) = true
  · constructor <;> simp [workerIndexInode, hs, he]
  · constructor <;> simp [workerIndexInode, hs]

/-! ## C6 — embed re-delivery is a no-op -/

/-- The selection conditions of the embed query other than
`embedding IS NULL`: index inside the `[from_page, to_page)` window,
non-empty contents, owning inode. -/
def embedWindowPred (i : Inode) (p : Page) : Bool :=
  decide (i.from_page ≤ p.index) &&
  (match i.to_page with
   | none => false
   | some t => decide (p.index < t)) &&
  decide (0 < p.contents.length) &&
  (p.inode_id == i.id)

/-- C6: if every page that satisfies the embed window conditions already
carries an embedding (the state after a successful `embed_inode` run),
then re-delivering `embed_inode` selects zero pages, makes zero requests
to the embedding provider (in both implementations), does not raise, and
leaves `is_embedded` true. -/
theorem c6_reembed_noop (i : Inode) (tbl : List Page)
    (h : ∀ p ∈ tbl, embedWindowPred i p = true → p.embedding.isSome = true) :
    embedSelect tbl { i with error := none, is_embedded := true } = []
    ∧ (tasksEmbedInode { i with error := none, is_embedded := true } tbl
        true).requests = 0
    ∧ (workerEmbedInode { i with error := none, is_embedded := true } tbl
        true).requests = 0
    ∧ (tasksEmbedInode { i with error := none, is_embedded := true } tbl
        true).raised = false
    ∧ (workerEmbedInode { i with error := none, is_embedded := true } tbl
        true).raised = false
    ∧ (tasksEmbedInode { i with error := none, is_embedded := true } tbl
        true).inode.is_embedded = true
    ∧ (workerEmbedInode { i with error := none, is_embedded := true } tbl
        true).inode.is_embedded = true := by
  have hsel : embedSelect tbl { i with error := none, is_embedded := true }
      = [] := by
    apply List.filter_eq_nil_iff.mpr
    intro p hp hpred
    simp only [Bool.and_eq_true] at hpred
    obtain ⟨⟨⟨⟨h₁, h₂⟩, h₃⟩, h₄⟩, h₅⟩ := hpred
    have hw : embedWindowPred i p = true := by
      simp only [embedWindowPred, Bool.and_eq_true]
      exact ⟨⟨⟨h₁, h₂⟩, h₄⟩, h₅⟩
    have hs := h p hp hw
    rw [Option.isNone_iff_eq_none] at h₃
    rw [h₃] at hs
    cases hs
  refine ⟨hsel, ?_, ?_, rfl, rfl, rfl, rfl⟩
  · simp [tasksEmbedInode, hsel, providerRequests, batched64]
  · simp [workerEmbedInode, hsel, providerRequests, batched64]

/-- A page of `exInode` that already carries an embedding. -/
def exPageEmbedded : Page :=
  { inode_id := 42, index := 0, contents := "hello", embedding := some [] }

/-- Witness for C6: a one-page table where the page already has an
embedding. -/
theorem c6_witness :
    embedSelect [exPageEmbedded]
      { exInode with error := none, is_embedded := true } = []
    ∧ (workerEmbedInode { exInode with error := none, is_embedded := true }
        [exPageEmbedded] true).requests = 0 :=
  ⟨(c6_reembed_noop exInode [exPageEmbedded] (by decide)).1,
   (c6_reembed_noop exInode [exPageEmbedded] (by decide)).2.2.1⟩

/-! ## C8 — slicing a PDF to the `[from_page, to_page)` window -/

/-- Deleting the indices `t+k-1, t+k-2, ..., t` (descending) from a list
of length `t + k` truncates it to its first `t` elements: each deletion
removes the current last element. -/
theorem foldl_eraseIdx_range'_reverse {α : Type} :
    ∀ (k : Nat) (l : List α) (t : Nat), l.length = t + k →
      (List.range' t k).reverse.foldl List.eraseIdx l = l.take t := by
  intro k
  induction k with
  | zero =>
    intro l t h
    simp only [Nat.add_zero] at h
    simp [← h, List.take_length]
  | succ k ih =>
    intro l t h
    rw [List.range'_concat, List.reverse_append]
    simp only [List.reverse_cons, List.reverse_nil, List.nil_append,
      List.singleton_append, List.foldl_cons]
    have h1 : l.eraseIdx (t + 1 * k) = l.take (t + k) := by
      rw [List.eraseIdx_eq_take_drop_succ,
        List.drop_eq_nil_of_le (by omega), List.append_nil]
      congr 1
      omega
    rw [h1, ih (l.take (t + k)) t (by simp [List.length_take]; omega),
      List.take_take]
    congr 1
    omega

/-- Deleting the indices `f-1, f-2, ..., 0` (descending) from a list
drops its first `f` elements. -/
theorem foldl_eraseIdx_range_reverse {α : Type} :
    ∀ (f : Nat) (l : List α), f ≤ l.length →
      (List.range f).reverse.foldl List.eraseIdx l = l.drop f := by
  intro f
  induction f with
  | zero => intro l _; simp
  | succ f ih =>
    intro l h
    rw [List.range_succ, List.reverse_append]
    simp only [List.reverse_cons, List.reverse_nil, List.nil_append,
      List.singleton_append, List.foldl_cons]
    have h1 : (l.eraseIdx f).drop f = l.drop (f + 1) := by
      rw [List.eraseIdx_eq_take_drop_succ,
        List.drop_left' (List.length_take_of_le (by omega))]
    rw [ih (l.eraseIdx f)
      (by rw [List.length_eraseIdx_of_lt (by omega)]; omega), h1]

/-- C8: for `0 ≤ from_page ≤ to_page ≤ n`, `slice_pdf` keeps exactly the
pages of the half-open window `[from_page, to_page)` (it deletes exactly
the indices outside it), the delete sequence it iterates is strictly
descending, the result has `to_page - from_page` pages, and when the
window covers the whole document nothing is modified or saved. -/
theorem c8_slice_pdf {α : Type} (l : List α) (f t : Nat) (hft : f ≤ t)
    (htl : t ≤ l.length) :
    (slicePdfPages l f t).1 = (l.take t).drop f
    ∧ (slicePdfPages l f t).1.length = t - f
    ∧ ((pagesToDelete l.length f t).reverse).Pairwise (fun a b => b < a)
    ∧ (f = 0 → t = l.length → slicePdfPages l f t = (l, false)) := by
  have hmain : (slicePdfPages l f t).1 = (l.take t).drop f := by
    rw [slicePdfPages]
    by_cases hemp : (pagesToDelete l.length f t).isEmpty = true
    · simp only [hemp, if_pos]
      rw [pagesToDelete, List.isEmpty_iff, List.append_eq_nil] at hemp
      have hf : f = 0 := by
        have := hemp.1
        rcases Nat.eq_zero_or_pos f with h0 | h0
        · exact h0
        · rw [List.range_eq_nil] at this; omega
      have ht : l.length - t = 0 := by
        have := hemp.2
        rcases Nat.eq_zero_or_pos (l.length - t) with h0 | h0
        · exact h0
        · rw [List.range'_eq_nil] at this; omega
      have ht' : t = l.length := by omega
      simp [hf, ht', List.take_length]
    · simp only [hemp, if_neg, Bool.not_eq_true]
      rw [pagesToDelete, List.reverse_append, List.foldl_append,
        foldl_eraseIdx_range'_reverse (l.length - t) l t (by omega),
        foldl_eraseIdx_range_reverse f (l.take t)
          (by simp [List.length_take]; omega)]
  refine ⟨hmain, ?_, ?_, ?_⟩
  · rw [hmain, List.length_drop, List.length_take]
    omega
  · rw [List.pairwise_reverse]
    apply List.pairwise_append.mpr
    refine ⟨List.pairwise_lt_range f, List.pairwise_lt_range' t _, ?_⟩
    intro a ha b hb
    rw [List.mem_range] at ha
    rw [List.mem_range'_1] at hb
    omega
  · intro hf ht
    subst hf
    subst ht
    simp [slicePdfPages, pagesToDelete]

/-! ## C5 — page writes: upsert characterization and idempotence -/

/-- The contents update preserves row keys. -/
theorem pkey_updContents (v : PageValue) (p : Page) :
    pkey (updContents v p) = pkey p := by
  rw [updContents]; split <;> rfl

/-- The contents update never touches the `embedding` column. -/
theorem embedding_updContents (v : PageValue) (p : Page) :
    (updContents v p).embedding = p.embedding := by
  rw [updContents]; split <;> rfl

/-- Filtering by key commutes with the contents update. -/
theorem filter_key_map_updContents (v : PageValue) (k : Nat × Nat)
    (tbl : List Page) :
    (tbl.map (updContents v)).filter (keyIs k)
      = (tbl.filter (keyIs k)).map (updContents v) := by
  induction tbl with
  | nil => rfl
  | cons p rest ih =>
    have hkey : keyIs k (updContents v p) = keyIs k p := by
      rw [keyIs, keyIs, pkey_updContents]
    cases hp : keyIs k p <;>
      simp [List.filter_cons, hkey, hp, ih]

/-- Updating at a key that no row of the list carries is the
identity. -/
theorem map_updContents_id (v : PageValue) (l : List Page)
    (h : ∀ p ∈ l, pkey p ≠ vkey v) : l.map (updContents v) = l := by
  have h2 : ∀ p ∈ l, updContents v p = id p := by
    intro p hp
    have hf : keyIs (vkey v) p = false := by
      simp only [keyIs, beq_eq_false_iff_ne]
      exact h p hp
    simp [updContents, hf]
  rw [List.map_congr_left h2, List.map_id]

/-- An upsert leaves every other key's rows untouched. -/
theorem filter_upsertPage_ne (tbl : List Page) (v : PageValue)
    (k : Nat × Nat) (hk : k ≠ vkey v) :
    (upsertPage tbl v).filter (keyIs k) = tbl.filter (keyIs k) := by
  rw [upsertPage]
  by_cases ha : tbl.any (keyIs (vkey v)) = true
  · rw [if_pos ha, filter_key_map_updContents]
    apply map_updContents_id
    intro p hp
    rw [List.mem_filter] at hp
    have hpk : pkey p = k := by simpa [keyIs] using hp.2
    rw [hpk]; exact hk
  · rw [if_neg ha, List.filter_append]
    have hrow : keyIs k (insRow v) = false := by
      simp only [keyIs, beq_eq_false_iff_ne, insRow, pkey, vkey]
      exact fun heq => hk heq.symm
    simp [List.filter_cons, hrow]

/-- After upserting `v` into a table respecting the unique constraint,
the rows at `v`'s key are exactly one row carrying `v.contents`. -/
theorem filter_upsertPage_self (tbl : List Page) (v : PageValue)
    (hu : (tbl.filter (keyIs (vkey v))).length ≤ 1) :
    ((upsertPage tbl v).filter (keyIs (vkey v))).map Page.contents
      = [v.contents] := by
  rw [upsertPage]
  by_cases ha : tbl.any (keyIs (vkey v)) = true
  · rw [if_pos ha, filter_key_map_updContents]
    rw [List.any_eq_true] at ha
    obtain ⟨p, hp, hkp⟩ := ha
    have hmem : p ∈ tbl.filter (keyIs (vkey v)) :=
      List.mem_filter.mpr ⟨hp, hkp⟩
    have h1 : (tbl.filter (keyIs (vkey v))).length = 1 := by
      have hpos : 0 < (tbl.filter (keyIs (vkey v))).length :=
        List.length_pos.mpr (List.ne_nil_of_mem hmem)
      omega
    obtain ⟨q, hq⟩ := List.length_eq_one.mp h1
    have hkq : keyIs (vkey v) q = true := by
      have hqm : q ∈ tbl.filter (keyIs (vkey v)) := by
        rw [hq]; exact List.mem_cons_self q []
      exact (List.mem_filter.mp hqm).2
    rw [hq]
    simp [updContents, hkq]
  · rw [if_neg ha, List.filter_append]
    have hnil : tbl.filter (keyIs (vkey v)) = [] := by
      rw [List.filter_eq_nil_iff]
      intro p hp hkp
      exact ha (List.any_eq_true.mpr ⟨p, hp, hkp⟩)
    have hrow : keyIs (vkey v) (insRow v) = true := by
      simp [keyIs, pkey, vkey, insRow]
    rw [hnil, List.nil_append]
    simp only [List.filter_cons, hrow, if_true]
    simp [insRow]

/-- Upserting preserves the unique constraint. -/
theorem uniq_upsertPage (tbl : List Page) (v : PageValue)
    (hu : uniqTable tbl) : uniqTable (upsertPage tbl v) := by
  intro k
  by_cases hk : k = vkey v
  · subst hk
    have hc := filter_upsertPage_self tbl v (hu (vkey v))
    have hlen := congrArg List.length hc
    rw [List.length_map] at hlen
    simp only [List.length_cons, List.length_nil] at hlen
    omega
  · rw [filter_upsertPage_ne tbl v k hk]
    exact hu k

/-- A whole upsert statement preserves the unique constraint. -/
theorem uniq_upsertPages (tbl : List Page) (vs : List PageValue)
    (hu : uniqTable tbl) : uniqTable (upsertPages tbl vs) := by
  induction vs generalizing tbl with
  | nil => exact hu
  | cons v rest ih => exact ih (upsertPage tbl v) (uniq_upsertPage tbl v hu)

/-- A whole upsert statement leaves keys it does not mention
untouched. -/
theorem filter_upsertPages_ne (tbl : List Page) (vs : List PageValue)
    (k : Nat × Nat) (hk : ∀ v ∈ vs, k ≠ vkey v) :
    (upsertPages tbl vs).filter (keyIs k) = tbl.filter (keyIs k) := by
  induction vs generalizing tbl with
  | nil => rfl
  | cons v rest ih =>
    show (upsertPages (upsertPage tbl v) rest).filter (keyIs k)
      = tbl.filter (keyIs k)
    rw [ih (upsertPage tbl v) (fun w hw => hk w (List.mem_cons_of_mem _ hw)),
      filter_upsertPage_ne tbl v k (hk v (List.mem_cons_self _ _))]

/-- After a whole upsert with pairwise-distinct value keys, each value's
key holds exactly one row, carrying that value's contents. -/
theorem filter_upsertPages_mem (tbl : List Page) (vs : List PageValue)
    (hu : uniqTable tbl) (hnd : (vs.map vkey).Nodup) :
    ∀ v ∈ vs, ((upsertPages tbl vs).filter (keyIs (vkey v))).map
      Page.contents = [v.contents] := by
  induction vs generalizing tbl with
  | nil => intro v hv; cases hv
  | cons v₀ rest ih =>
    rw [List.map_cons, List.nodup_cons] at hnd
    intro v hv
    cases hv with
    | head =>
      show ((upsertPages (upsertPage tbl v₀) rest).filter
        (keyIs (vkey v₀))).map Page.contents = [v₀.contents]
      rw [filter_upsertPages_ne (upsertPage tbl v₀) rest (vkey v₀)
        (fun w hw heq => hnd.1 (heq ▸ List.mem_map_of_mem vkey hw))]
      exact filter_upsertPage_self tbl v₀ (hu (vkey v₀))
    | tail _ hv =>
      exact ih (upsertPage tbl v₀) (uniq_upsertPage tbl v₀ hu) hnd.2 v hv

/-- A conflicting existing row survives an upsert with its key and its
`embedding` column intact — only `contents` can change. -/
theorem embedding_preserved_upsertPage (tbl : List Page) (v : PageValue) :
    ∀ p ∈ tbl, ∃ q ∈ upsertPage tbl v,
      pkey q = pkey p ∧ q.embedding = p.embedding := by
  intro p hp
  rw [upsertPage]
  by_cases ha : tbl.any (keyIs (vkey v)) = true
  · rw [if_pos ha]
    exact ⟨updContents v p, List.mem_map_of_mem _ hp,
      pkey_updContents v p, embedding_updContents v p⟩
  · rw [if_neg ha]
    exact ⟨p, List.mem_append_left _ hp, rfl, rfl⟩

/-- As above, across a whole upsert statement. -/
theorem embedding_preserved_upsertPages (tbl : List Page)
    (vs : List PageValue) :
    ∀ p ∈ tbl, ∃ q ∈ upsertPages tbl vs,
      pkey q = pkey p ∧ q.embedding = p.embedding := by
  induction vs generalizing tbl with
  | nil => intro p hp; exact ⟨p, hp, rfl, rfl⟩
  | cons v rest ih =>
    intro p hp
    obtain ⟨q₁, hq₁, hk₁, he₁⟩ := embedding_preserved_upsertPage tbl v p hp
    obtain ⟨q, hq, hk, he⟩ := ih (upsertPage tbl v) q₁ hq₁
    exact ⟨q, hq, hk.trans hk₁, he.trans he₁⟩

/-- When the table already holds exactly `v.contents` at `v`'s key, the
upsert of `v` is the identity. -/
theorem upsertPage_fixed (T : List Page) (v : PageValue)
    (hc : (T.filter (keyIs (vkey v))).map Page.contents = [v.contents]) :
    upsertPage T v = T := by
  have hone : ∃ q, T.filter (keyIs (vkey v)) = [q] := by
    apply List.length_eq_one.mp
    have hlen := congrArg List.length hc
    rw [List.length_map] at hlen
    simpa using hlen
  obtain ⟨q, hq⟩ := hone
  have hqc : q.contents = v.contents := by
    rw [hq] at hc
    simpa using hc
  have hany : T.any (keyIs (vkey v)) = true := by
    rw [List.any_eq_true]
    have hqm : q ∈ T.filter (keyIs (vkey v)) := by
      rw [hq]; exact List.mem_cons_self q []
    have hqm2 := List.mem_filter.mp hqm
    exact ⟨q, hqm2.1, hqm2.2⟩
  rw [upsertPage, if_pos hany]
  have h2 : ∀ p ∈ T, updContents v p = id p := by
    intro p hp
    cases hkp : keyIs (vkey v) p with
    | false => simp [updContents, hkp]
    | true =>
      have hpq : p = q := by
        have : p ∈ T.filter (keyIs (vkey v)) :=
          List.mem_filter.mpr ⟨hp, hkp⟩
        rw [hq, List.mem_singleton] at this
        exact this
      subst hpq
      simp [updContents, hkp, ← hqc]
  rw [List.map_congr_left h2, List.map_id]

/-- A whole upsert each of whose steps is the identity is the
identity. -/
theorem upsertPages_fixed (T : List Page) (vs : List PageValue)
    (h : ∀ v ∈ vs, upsertPage T v = T) : upsertPages T vs = T := by
  induction vs with
  | nil => rfl
  | cons v rest ih =>
    show upsertPages (upsertPage T v) rest = T
    rw [h v (List.mem_cons_self v rest)]
    exact ih (fun w hw => h w (List.mem_cons_of_mem v hw))

/-- The `VALUES` rows built by one ingest run carry pairwise-distinct
keys `(inode_id, from_page + j)`. -/
theorem workerPageValues_keys_nodup (i : Inode) (texts : List String) :
    ((workerPageValues i texts).map vkey).Nodup := by
  have heq : (workerPageValues i texts).map vkey
      = (List.range texts.length).map (fun j => (i.id, i.from_page + j)) := by
    rw [workerPageValues, List.map_map, ← List.enum_map_fst texts,
      List.map_map]
    rfl
  rw [heq]
  refine List.Nodup.map ?_ (List.nodup_range texts.length)
  intro a b hab
  simpa using hab

/-- Length of the `VALUES` list: one row per extracted text. -/
theorem workerPageValues_length (i : Inode) (texts : List String) :
    (workerPageValues i texts).length = texts.length := by
  simp [workerPageValues]

/-- The `j`-th `VALUES` row: window-shifted index and NUL-stripped
contents of the `j`-th extracted text. -/
theorem workerPageValues_get (i : Inode) (texts : List String) (j : Nat)
    (h1 : j < (workerPageValues i texts).length) (h2 : j < texts.length) :
    (workerPageValues i texts).get ⟨j, h1⟩
      = { contents := removeNul (texts.get ⟨j, h2⟩),
          index := i.from_page + j, inode_id := i.id } := by
  simp [workerPageValues, List.get_eq_getElem, List.getElem_enum]

/-- C5 (amended): in the service-based worker, one ingest run that
extracted texts `t_0 .. t_{n-1}` builds exactly one `VALUES` row per
text, with `index = from_page + j` and contents `t_j` with NUL bytes
removed; upserting them into a table respecting the `(inode_id, index)`
unique constraint leaves exactly one row per value key carrying the new
contents, preserves the constraint, touches only the `contents` column
of conflicting rows (key and `embedding` survive), and re-delivering the
same upsert changes nothing.  (The legacy `tasks.py` handler instead
whitespace-strips contents and plain-INSERTs the rows, so re-delivery
fails on the unique constraint — see the counterexample.) -/
theorem c5_amended (i : Inode) (texts : List String) (tbl : List Page)
    (hu : uniqTable tbl) :
    (workerPageValues i texts).length = texts.length
    ∧ (∀ (j : Nat) (h1 : j < (workerPageValues i texts).length)
        (h2 : j < texts.length),
        (workerPageValues i texts).get ⟨j, h1⟩
          = { contents := removeNul (texts.get ⟨j, h2⟩),
              index := i.from_page + j, inode_id := i.id })
    ∧ (∀ v ∈ workerPageValues i texts,
        ((upsertPages tbl (workerPageValues i texts)).filter
          (keyIs (vkey v))).map Page.contents = [v.contents])
    ∧ uniqTable (upsertPages tbl (workerPageValues i texts))
    ∧ (∀ p ∈ tbl, ∃ q ∈ upsertPages tbl (workerPageValues i texts),
        pkey q = pkey p ∧ q.embedding = p.embedding)
    ∧ upsertPages (upsertPages tbl (workerPageValues i texts))
        (workerPageValues i texts)
      = upsertPages tbl (workerPageValues i texts) := by
  have hnd := workerPageValues_keys_nodup i texts
  have hchar := filter_upsertPages_mem tbl (workerPageValues i texts) hu hnd
  refine ⟨workerPageValues_length i texts, workerPageValues_get i texts,
    hchar, uniq_upsertPages tbl _ hu,
    embedding_preserved_upsertPages tbl _, ?_⟩
  exact upsertPages_fixed _ _ (fun v hv => upsertPage_fixed _ v (hchar v hv))

/-- Witness for C5: two texts upserted into an empty table; the
re-delivered upsert is a no-op. -/
theorem c5_witness :
    upsertPages (upsertPages [] (workerPageValues exInode ["ab", "cd"]))
        (workerPageValues exInode ["ab", "cd"])
      = upsertPages [] (workerPageValues exInode ["ab", "cd"])
    ∧ (workerPageValues exInode ["ab", "cd"]).length = 2 :=
  ⟨(c5_amended exInode ["ab", "cd"] []
      (fun k => by simp)).2.2.2.2.2,
   (c5_amended exInode ["ab", "cd"] []
      (fun k => by simp)).1⟩

/-- The page row the first `tasks.py` ingest delivery of `exInode`
leaves in the table. -/
def exPagePlain : Page :=
  { inode_id := 42, index := 0, contents := "hello", embedding := none }

/-- C5 counterexample: the legacy `tasks.py::ingest_inode` writes its
page rows with `session.add_all` — a plain INSERT, not an upsert — so
re-delivering `ingest_inode` for the same inode hits the
`(inode_id, index)` unique constraint instead of producing identical
rows: the first delivery inserts the row, the second errors. -/
theorem c5_counterexample :
    insertPages [] ((tasksIngest exInode exTEnvOk true).newPages)
      = .ok [exPagePlain]
    ∧ insertPages [exPagePlain] ((tasksIngest exInode exTEnvOk true).newPages)
      = .error .uniqueViolation := ⟨rfl, rfl⟩

/-- Witness for C8 at a concrete four-page document and window
`[1, 3)`. -/
theorem c8_witness :
    (slicePdfPages (["a", "b", "c", "d"] : List String) 1 3).1
      = ((["a", "b", "c", "d"] : List String).take 3).drop 1
    ∧ (slicePdfPages (["a", "b", "c", "d"] : List String) 1 3).1.length
        = 3 - 1 :=
  ⟨(c8_slice_pdf ["a", "b", "c", "d"] 1 3 (by decide) (by decide)).1,
   (c8_slice_pdf ["a", "b", "c", "d"] 1 3 (by decide) (by decide)).2.1⟩

end InsightWorker
